import Mathlib

/-!
Shallow embedding of `src/bin/collect_bioconda_recipes.py`.

The script loads Bioconda recipe files (Jinja2-templated YAML), indexes the
parsed documents by their `package.name`, filters them by keyword match
against the `about.description` / `about.summary` free text, and exports the
result.  File reading, Jinja2 rendering and YAML parsing are external
effects; they are modelled by the possible outcomes they produce
(`FileContent` below).  Python dictionaries are modelled as insertion-ordered
association lists, with overwriting insertion (`dictInsert`) reproducing
`data[pkg_name] = conda`.  Python strings are modelled as Lean `String`
(a list of characters); `str.lower()`, `str.split()`, the `in` substring
test and `fnmatch.fnmatch` are modelled by the executable functions
`lowerStr`, `splitWhitespace`, `strContainsSub` and `fnmatch`.
-/

/-- The optional `about` section of a parsed recipe document: free-text
`description` and `summary` fields, each possibly absent. -/
structure About where
  description : Option String
  summary : Option String
deriving DecidableEq, Repr

/-- The `package` section of a parsed recipe document.  Only the `name`
field is relevant to the script; it may be absent. -/
structure PackageSec where
  name : Option String
deriving DecidableEq, Repr

/-- A parsed recipe document (`meta.yaml` after rendering and YAML
parsing).  The `package` and `about` mappings may each be absent. -/
structure Recipe where
  package : Option PackageSec
  about : Option About
deriving DecidableEq, Repr

/-- Outcome of reading, Jinja2-rendering and YAML-parsing one matched
`meta.yaml` file.  `doc none` is a document that parses to YAML null
(an empty file), which Python sees as falsy (`not conda`). -/
inductive FileContent where
  | renderError : FileContent
  | yamlError : FileContent
  | doc : Option Recipe → FileContent
deriving DecidableEq, Repr

/-- One file matched by the `./*/meta.yaml` glob: its path and the outcome
of rendering and parsing it. -/
structure File where
  path : String
  content : FileContent
deriving DecidableEq, Repr

/-- Errors raised by the pipeline, each naming the offending file path:
`RuntimeError` on Jinja2 rendering failure, `RuntimeError` on YAML parsing
failure, `ValueError` on a document lacking `package.name`. -/
inductive PipelineError where
  | renderError : String → PipelineError
  | parseYamlError : String → PipelineError
  | missingPackageName : String → PipelineError
deriving DecidableEq, Repr

/-- Model of Python `str.lower()`: lower-case every character. -/
def lowerStr (s : String) : String :=
  String.mk (s.data.map Char.toLower)

/-- Auxiliary for `splitWhitespace`: scan the characters, accumulating the
current (reversed) word, emitting it when whitespace or the end is hit. -/
def splitWhitespaceAux : List Char → List Char → List String
  | [], acc => if acc.isEmpty then [] else [String.mk acc.reverse]
  | c :: cs, acc =>
    if c.isWhitespace then
      (if acc.isEmpty then [] else [String.mk acc.reverse]) ++ splitWhitespaceAux cs []
    else
      splitWhitespaceAux cs (c :: acc)

/-- Model of Python `str.split()` with no argument: split on runs of
whitespace, discarding empty words. -/
def splitWhitespace (s : String) : List String :=
  splitWhitespaceAux s.data []

/-- All suffixes of a list, longest first (the list itself down to `[]`). -/
def tailsOf : List Char → List (List Char)
  | [] => [[]]
  | c :: cs => (c :: cs) :: tailsOf cs

/-- Does `hay` start with `needle`? -/
def listStartsWith : List Char → List Char → Bool
  | [], _ => true
  | _ :: _, [] => false
  | a :: as, b :: bs => a == b && listStartsWith as bs

/-- Model of the Python substring test `needle in hay`. -/
def strContainsSub (hay needle : String) : Bool :=
  (tailsOf hay.data).any (fun t => listStartsWith needle.data t)

/-- Shell-style glob matching of a whole string against a whole pattern,
as performed by `fnmatch.fnmatch` on POSIX for patterns built from literal
characters, `?` and `*` (the keyword patterns of this program use only
literal characters and `*`; `[...]` character classes are not modelled).
`*` matches any run of characters, `?` any single character, and any other
pattern character only itself. -/
def globMatch : List Char → List Char → Bool
  | [], s => s.isEmpty
  | '*' :: ps, s => (tailsOf s).any (fun t => globMatch ps t)
  | '?' :: ps, s =>
    match s with
    | [] => false
    | _ :: cs => globMatch ps cs
  | p :: ps, s =>
    match s with
    | [] => false
    | c :: cs => p == c && globMatch ps cs

/-- Model of `fnmatch.fnmatch(name, pat)` (both arguments are already
lower-cased at every call site in the script, so the case-normalisation
`fnmatch` performs is the identity here). -/
def fnmatch (name pat : String) : Bool :=
  globMatch pat.data name.data

/-- The lower-cased search text of a recipe, exactly as built by
`filter_conda_by_keywords`:
`(about.get("description", "") + " " + about.get("summary", "")).lower()`
with `about = recipe.get("about", {})`. -/
def searchText (r : Recipe) : String :=
  let about := r.about.getD { description := none, summary := none }
  lowerStr ((about.description.getD "") ++ " " ++ (about.summary.getD ""))

/-- Does one keyword match the given search text?  Mirrors the per-keyword
test of `filter_conda_by_keywords`: the keyword is lower-cased; if it
contains `*` each whitespace-delimited word of the text is glob-matched
against it, otherwise it is tested as a literal substring of the text. -/
def keywordMatches (kw : String) (text : String) : Bool :=
  let kwLower := lowerStr kw
  if kwLower.data.contains '*' then
    (splitWhitespace text).any (fun word => fnmatch word kwLower)
  else
    strContainsSub text kwLower

/-- The list `matched` accumulated for one recipe: the keywords (in their
original spelling and order) that match the recipe's search text. -/
def matchedKeywords (keywords : List String) (r : Recipe) : List String :=
  keywords.filter (fun kw => keywordMatches kw (searchText r))

/-- Does the recipe match at least one keyword (`if matched:`)? -/
def recipeMatches (keywords : List String) (r : Recipe) : Bool :=
  !(matchedKeywords keywords r).isEmpty

/-- The loop body of `filter_conda_by_keywords` over the collection's
entries, returning the retained entries, the diagnostic lines printed so
far (when verbose) and the match counter. -/
def filterGo (keywords : List String) (verbose : Bool) :
    List (String × Recipe) → List (String × Recipe) × List String × Nat
  | [] => ([], [], 0)
  | p :: rest =>
    let r := filterGo keywords verbose rest
    let matched := matchedKeywords keywords p.2
    if matched.isEmpty then r
    else
      (p :: r.1,
       (if verbose then
          ["Match found in: " ++ p.1 ++ " | Matched keywords: "
            ++ String.intercalate ", " matched]
        else []) ++ r.2.1,
       r.2.2 + 1)

/-- Model of `filter_conda_by_keywords(conda, keywords, verbose)`: the filtered
collection together with the diagnostic lines printed (the printing itself
is the only effect; it is returned as data so that its independence from
the result can be stated). -/
def filter_conda_by_keywords (conda : List (String × Recipe)) (keywords : List String)
    (verbose : Bool) : List (String × Recipe) × List String :=
  let r := filterGo keywords verbose conda
  (r.1, r.2.1 ++ (if verbose then ["Total matches: " ++ toString r.2.2] else []))

/-- Python dict insertion `d[k] = v` on an insertion-ordered association
list: overwrite in place when the key is present, append otherwise. -/
def dictInsert (d : List (String × Recipe)) (k : String) (v : Recipe) :
    List (String × Recipe) :=
  if d.any (fun p => p.1 == k) then
    d.map (fun p => if p.1 == k then (k, v) else p)
  else
    d ++ [(k, v)]

/-- The loop of `parse_bioconda` over the matched files, threading the
`data` dictionary.  A render failure, a YAML parse failure, or a document
that is falsy / lacks `package` / lacks `package.name` aborts the run with
the corresponding error naming the file; otherwise the document is stored
under its `package.name`. -/
def parseGo (acc : List (String × Recipe)) :
    List File → Except PipelineError (List (String × Recipe))
  | [] => Except.ok acc
  | f :: rest =>
    match f.content with
    | FileContent.renderError => Except.error (PipelineError.renderError f.path)
    | FileContent.yamlError => Except.error (PipelineError.parseYamlError f.path)
    | FileContent.doc od =>
      match od with
      | none => Except.error (PipelineError.missingPackageName f.path)
      | some r =>
        match r.package with
        | none => Except.error (PipelineError.missingPackageName f.path)
        | some pkg =>
          match pkg.name with
          | none => Except.error (PipelineError.missingPackageName f.path)
          | some nm => parseGo (dictInsert acc nm r) rest

/-- Model of `parse_bioconda(directory)`: fold the matched files into a collection
keyed by `package.name`, starting from the empty dictionary. -/
def parse_bioconda (files : List File) : Except PipelineError (List (String × Recipe)) :=
  parseGo [] files

/-- A collection entry whose key equals the document's `package.name`. -/
def keyedByPackageName (p : String × Recipe) : Prop :=
  Option.bind p.2.package PackageSec.name = some p.1

instance : DecidablePred keyedByPackageName := fun p =>
  decEq (Option.bind p.2.package PackageSec.name) (some p.1)

/-- A file whose rendering and YAML parsing succeed and whose document
carries a `package.name`: `parse_bioconda` steps past it. -/
def fileValid (f : File) : Bool :=
  match f.content with
  | FileContent.doc (some r) =>
    match r.package with
    | some pkg => pkg.name.isSome
    | none => false
  | _ => false

/-- A file whose rendering and YAML parsing succeed but whose document
lacks `package.name`: the document is YAML null, has no `package` section,
or has a `package` section without `name`. -/
def lacksPackageName (f : File) : Bool :=
  match f.content with
  | FileContent.doc none => true
  | FileContent.doc (some r) => (Option.bind r.package PackageSec.name).isNone
  | _ => false

/-- The value stored under the `keywords` key of the keyword-configuration
document: either a YAML sequence of strings or some non-sequence value
(a scalar, for instance), which the script rejects with a `TypeError`. -/
inductive KeywordsVal where
  | seq : List String → KeywordsVal
  | scalar : String → KeywordsVal
deriving DecidableEq, Repr

/-- A parsed keyword-configuration document: the `keywords` key may be
absent.  A document that parses to YAML null (or an empty mapping, both
falsy in Python) is represented as `none` at the use site. -/
structure ConfigDoc where
  keywords : Option KeywordsVal
deriving DecidableEq, Repr

/-- Errors raised by `load_keywords_from_yaml`, each naming the
configuration file: `ValueError` when the `keywords` key is missing,
`TypeError` when its value is not a list. -/
inductive ConfigError where
  | missingKey : String → ConfigError
  | wrongType : String → ConfigError
deriving DecidableEq, Repr

/-- The value under the `keywords` key, if the document and the key are
both present. -/
def keywordsOf (data : Option ConfigDoc) : Option KeywordsVal :=
  Option.bind data ConfigDoc.keywords

/-- Model of `load_keywords_from_yaml(keyword_file)` applied to the parsed content
of the file: reject a falsy document or one without the `keywords` key
with `ValueError`, reject a non-list value with `TypeError`, and return
the list unchanged otherwise. -/
def load_keywords_from_yaml (keyword_file : String) (data : Option ConfigDoc) :
    Except ConfigError (List String) :=
  match data with
  | none => Except.error (ConfigError.missingKey keyword_file)
  | some d =>
    match d.keywords with
    | none => Except.error (ConfigError.missingKey keyword_file)
    | some (KeywordsVal.seq ks) => Except.ok ks
    | some (KeywordsVal.scalar _) => Except.error (ConfigError.wrongType keyword_file)

/-- The search text as the words of the specification describe it, with
`summary` first: lower-casing of `summary` concatenated with `description`
joined by a single space.  Written to be compared against `searchText`,
which is translated from the code (the code puts `description` first). -/
def searchText_specOrder (r : Recipe) : String :=
  let about := r.about.getD { description := none, summary := none }
  lowerStr ((about.summary.getD "") ++ " " ++ (about.description.getD ""))

/-- A well-formed sample recipe whose text matches keyword `"16S"`. -/
def sampleRecipe1 : Recipe :=
  { package := some { name := some "pkg1" },
    about := some { description := some "This tool profiles microbial diversity in metagenomics studies",
                    summary := some "Analysis of 16S rRNA microbial communities" } }

/-- A sample file parsing to `sampleRecipe1`. -/
def sampleFile1 : File :=
  { path := "recipes/pkg1/meta.yaml", content := FileContent.doc (some sampleRecipe1) }

/-- A recipe whose `package.name` is present but is the empty string; the
validation of `parse_bioconda` accepts it. -/
def emptyNameRecipe : Recipe :=
  { package := some { name := some "" },
    about := some { description := some "metagenomics toolkit", summary := none } }

/-- A sample file parsing to `emptyNameRecipe`. -/
def emptyNameFile : File :=
  { path := "recipes/noname/meta.yaml", content := FileContent.doc (some emptyNameRecipe) }

/-- A recipe with `description` `"alpha"` and `summary` `"beta"`, used to
separate the two possible concatenation orders of the search text. -/
def alphaBetaRecipe : Recipe :=
  { package := none,
    about := some { description := some "alpha", summary := some "beta" } }

/-- A file whose document has a `package` section without `name`. -/
def noNameFile : File :=
  { path := "recipes/bad/meta.yaml",
    content := FileContent.doc (some { package := some { name := none }, about := none }) }

/-! ### Helper lemmas -/

/-- The collection returned by the filter loop is `List.filter` of the
input by `recipeMatches`, independently of the verbosity flag. -/
theorem filterGo_fst (ks : List String) (v : Bool) (l : List (String × Recipe)) :
    (filterGo ks v l).1 = l.filter (fun p => recipeMatches ks p.2) := by
  induction l with
  | nil => rfl
  | cons p rest ih =>
    rw [List.filter_cons]
    simp only [filterGo]
    cases h : (matchedKeywords ks p.2).isEmpty
    · have hr : recipeMatches ks p.2 = true := by simp [recipeMatches, h]
      simp [h, hr, ih]
    · have hr : recipeMatches ks p.2 = false := by simp [recipeMatches, h]
      simp [h, hr, ih]

/-- The collection component of `filter_conda_by_keywords` is a plain
`List.filter` by `recipeMatches`. -/
theorem filter_conda_fst (c : List (String × Recipe)) (ks : List String) (v : Bool) :
    (filter_conda_by_keywords c ks v).1 = c.filter (fun p => recipeMatches ks p.2) := by
  simp only [filter_conda_by_keywords]
  exact filterGo_fst ks v c

/-- Filtering twice by the same predicate is the same as filtering once. -/
theorem filter_self_idem {α : Type} (p : α → Bool) (l : List α) :
    (l.filter p).filter p = l.filter p := by
  induction l with
  | nil => rfl
  | cons a l ih =>
    cases h : p a <;> simp [List.filter_cons, h, ih]

/-- A nonempty filter result is the same as some element satisfying the
predicate. -/
theorem not_isEmpty_filter_eq_any {α : Type} (p : α → Bool) (l : List α) :
    (!(l.filter p).isEmpty) = l.any p := by
  induction l with
  | nil => rfl
  | cons a l ih =>
    cases h : p a <;> simp [List.filter_cons, h, List.any_cons, ih]

/-- Every entry of `dictInsert d k v` is an entry of `d` or is `(k, v)`. -/
theorem mem_dictInsert (d : List (String × Recipe)) (k : String) (v : Recipe)
    (q : String × Recipe) (hq : q ∈ dictInsert d k v) : q ∈ d ∨ q = (k, v) := by
  unfold dictInsert at hq
  split at hq
  · obtain ⟨p, hp, hpq⟩ := List.mem_map.mp hq
    by_cases h : p.1 == k
    · right
      rw [if_pos h] at hpq
      exact hpq.symm
    · left
      rw [if_neg h] at hpq
      exact hpq ▸ hp
  · rcases List.mem_append.mp hq with h | h
    · exact Or.inl h
    · right
      simpa using h

/-- Every entry of a successfully built collection either was already in
the accumulator or is keyed by its document's `package.name`. -/
theorem parseGo_keyed (files : List File) :
    ∀ acc d : List (String × Recipe),
      parseGo acc files = Except.ok d →
      (∀ p ∈ acc, keyedByPackageName p) → ∀ p ∈ d, keyedByPackageName p := by
  induction files with
  | nil =>
    intro acc d h hacc
    simp only [parseGo] at h
    cases h
    exact hacc
  | cons f rest ih =>
    intro acc d h hacc
    simp only [parseGo] at h
    cases hc : f.content with
    | renderError => rw [hc] at h; cases h
    | yamlError => rw [hc] at h; cases h
    | doc od =>
      rw [hc] at h
      cases od with
      | none => cases h
      | some r =>
        dsimp only at h
        cases hp : r.package with
        | none => rw [hp] at h; cases h
        | some pkg =>
          rw [hp] at h
          dsimp only at h
          cases hn : pkg.name with
          | none => rw [hn] at h; cases h
          | some nm =>
            rw [hn] at h
            dsimp only at h
            refine ih (dictInsert acc nm r) d h ?_
            intro q hq
            rcases mem_dictInsert acc nm r q hq with hin | rfl
            · exact hacc q hin
            · simp [keyedByPackageName, hp, hn]

/-- Applying `Char.ofNat` to a valid scalar value decodes back to that value. -/
theorem toNat_ofNat_valid (n : Nat) (h : n.isValidChar) : (Char.ofNat n).toNat = n := by
  rw [Char.ofNat, dif_pos h]
  rfl

/-- Lower-casing a character yields `'*'` exactly when the character is
`'*'` (lower-casing only moves basic latin capitals, never to `'*'`). -/
theorem toLower_eq_star_iff (c : Char) : c.toLower = '*' ↔ c = '*' := by
  constructor
  · intro h
    rw [Char.toLower] at h
    split at h
    · rename_i hrange
      have hval : (Char.ofNat (c.toNat + 32)).toNat = c.toNat + 32 :=
        toNat_ofNat_valid _ (Or.inl (by omega))
      rw [h] at hval
      have h42 : ('*' : Char).toNat = 42 := rfl
      omega
    · exact h
  · intro h
    subst h
    rfl

/-- Lower-casing a keyword neither adds nor removes the wildcard
character. -/
theorem lowerStr_contains_star (s : String) :
    (lowerStr s).data.contains '*' = s.data.contains '*' := by
  show (s.data.map Char.toLower).contains '*' = s.data.contains '*'
  induction s.data with
  | nil => rfl
  | cons c cs ih =>
    simp only [List.map_cons, List.contains_cons, ih]
    congr 1
    by_cases hc : c = '*'
    · subst hc
      rfl
    · have h1 : ¬ c.toLower = '*' := fun h => hc ((toLower_eq_star_iff c).mp h)
      have e1 : (('*' : Char) == c.toLower) = false := by
        simpa [beq_eq_false_iff_ne] using fun h => h1 h.symm
      have e2 : (('*' : Char) == c) = false := by
        simpa [beq_eq_false_iff_ne] using fun h => hc h.symm
      rw [e1, e2]

/-- The test `listStartsWith n h` holds exactly when `h` extends `n`. -/
theorem listStartsWith_iff (n h : List Char) :
    listStartsWith n h = true ↔ ∃ t, h = n ++ t := by
  induction n generalizing h with
  | nil =>
    simp only [listStartsWith, List.nil_append, true_iff]
    exact ⟨h, rfl⟩
  | cons a as ih =>
    cases h with
    | nil =>
      simp only [listStartsWith]
      constructor
      · intro hfalse
        exact Bool.noConfusion hfalse
      · rintro ⟨t, ht⟩
        exact List.noConfusion ht
    | cons b bs =>
      simp only [listStartsWith, Bool.and_eq_true, beq_iff_eq, ih, List.cons_append,
        List.cons.injEq]
      constructor
      · rintro ⟨rfl, t, rfl⟩
        exact ⟨t, rfl, rfl⟩
      · rintro ⟨t, rfl, rfl⟩
        exact ⟨rfl, t, rfl⟩

/-- The suffixes of `l` are exactly the lists `t` with `l = a ++ t`. -/
theorem mem_tailsOf (l t : List Char) : t ∈ tailsOf l ↔ ∃ a, l = a ++ t := by
  induction l with
  | nil =>
    simp only [tailsOf, List.mem_singleton]
    constructor
    · rintro rfl
      exact ⟨[], rfl⟩
    · rintro ⟨a, ha⟩
      rcases List.append_eq_nil.mp ha.symm with ⟨-, rfl⟩
      rfl
  | cons c cs ih =>
    simp only [tailsOf, List.mem_cons, ih]
    constructor
    · rintro (rfl | ⟨a, rfl⟩)
      · exact ⟨[], rfl⟩
      · exact ⟨c :: a, rfl⟩
    · rintro ⟨a, ha⟩
      cases a with
      | nil => left; simpa using ha.symm
      | cons x xs =>
        right
        injection ha with h1 h2
        exact ⟨xs, h2⟩

/-- The Python substring test holds exactly when the needle's characters
occur contiguously somewhere in the haystack. -/
theorem strContainsSub_iff (hay needle : String) :
    strContainsSub hay needle = true ↔
      ∃ l r, hay.data = l ++ needle.data ++ r := by
  unfold strContainsSub
  rw [List.any_eq_true]
  constructor
  · rintro ⟨t, ht, hsw⟩
    obtain ⟨a, ha⟩ := (mem_tailsOf _ _).mp ht
    obtain ⟨r, hr⟩ := (listStartsWith_iff _ _).mp hsw
    exact ⟨a, r, by rw [ha, hr, List.append_assoc]⟩
  · rintro ⟨l, r, h⟩
    refine ⟨needle.data ++ r, (mem_tailsOf _ _).mpr ⟨l, by rw [h, List.append_assoc]⟩, ?_⟩
    exact (listStartsWith_iff _ _).mpr ⟨r, rfl⟩

/-- The empty keyword matches every search text: it has no wildcard and is
a substring of everything. -/
theorem keywordMatches_empty_kw (t : String) : keywordMatches "" t = true := by
  have h : keywordMatches "" t = strContainsSub t "" := rfl
  rw [h]
  exact (strContainsSub_iff t "").mpr ⟨[], t.data, by simp⟩

/-- No word produced by the whitespace split contains a whitespace
character (given a whitespace-free accumulator). -/
theorem splitWhitespaceAux_no_ws (l : List Char) :
    ∀ acc : List Char, (∀ c ∈ acc, c.isWhitespace = false) →
      ∀ w ∈ splitWhitespaceAux l acc, ∀ c ∈ w.data, c.isWhitespace = false := by
  induction l with
  | nil =>
    intro acc hacc w hw c hc
    simp only [splitWhitespaceAux] at hw
    split at hw
    · cases hw
    · rw [List.mem_singleton] at hw
      subst hw
      exact hacc c (by simpa using hc)
  | cons d ds ih =>
    intro acc hacc w hw c hc
    simp only [splitWhitespaceAux] at hw
    split at hw
    · rcases List.mem_append.mp hw with hw1 | hw2
      · split at hw1
        · cases hw1
        · rw [List.mem_singleton] at hw1
          subst hw1
          exact hacc c (by simpa using hc)
      · exact ih [] (by simp) w hw2 c hc
    · rename_i hd
      refine ih (d :: acc) ?_ w hw c hc
      intro x hx
      rcases List.mem_cons.mp hx with rfl | hx2
      · exact Bool.of_not_eq_true hd
      · exact hacc x hx2

/-- Every word of the whitespace split is free of whitespace characters. -/
theorem splitWhitespace_no_ws (s : String) :
    ∀ w ∈ splitWhitespace s, ∀ c ∈ w.data, c.isWhitespace = false :=
  splitWhitespaceAux_no_ws s.data [] (by simp)

/-- If every file before it is valid, a file lacking `package.name` aborts
the loop with a `ValueError` naming that file, whatever the accumulator
and whatever comes after it. -/
theorem parseGo_missing_name (f : File) (post : List File)
    (hf : lacksPackageName f = true) :
    ∀ pre : List File, (∀ g ∈ pre, fileValid g = true) →
      ∀ acc, parseGo acc (pre ++ f :: post)
        = Except.error (PipelineError.missingPackageName f.path) := by
  intro pre
  induction pre with
  | nil =>
    intro _ acc
    rw [List.nil_append]
    simp only [parseGo]
    cases hc : f.content with
    | renderError => simp [lacksPackageName, hc] at hf
    | yamlError => simp [lacksPackageName, hc] at hf
    | doc od =>
      cases od with
      | none => rfl
      | some r =>
        dsimp only
        cases hp : r.package with
        | none => rfl
        | some pkg =>
          dsimp only
          cases hn : pkg.name with
          | none => rfl
          | some nm => simp [lacksPackageName, hc, hp, hn] at hf
  | cons g pre ih =>
    intro hpre acc
    have hg : fileValid g = true := hpre g (List.mem_cons_self g pre)
    rw [List.cons_append]
    simp only [parseGo]
    cases hc : g.content with
    | renderError => simp [fileValid, hc] at hg
    | yamlError => simp [fileValid, hc] at hg
    | doc od =>
      cases od with
      | none => simp [fileValid, hc] at hg
      | some r =>
        dsimp only
        cases hp : r.package with
        | none => simp [fileValid, hc, hp] at hg
        | some pkg =>
          dsimp only
          cases hn : pkg.name with
          | none => simp [fileValid, hc, hp, hn] at hg
          | some nm =>
            dsimp only
            exact ih (fun x hx => hpre x (List.mem_cons_of_mem g hx)) (dictInsert acc nm r)

/-! ### Claim theorems -/

/-- C5: `filter_conda_by_keywords` is idempotent: filtering its own output
with the same keywords returns the same collection, for any verbosity
flags. -/
theorem C5_filter_idempotent (c : List (String × Recipe)) (ks : List String) (v1 v2 : Bool) :
    (filter_conda_by_keywords (filter_conda_by_keywords c ks v1).1 ks v2).1
      = (filter_conda_by_keywords c ks v1).1 := by
  rw [filter_conda_fst, filter_conda_fst]
  exact filter_self_idem _ _

/-- C9: the collection returned by `filter_conda_by_keywords` does not
depend on the `verbose` flag; the flag only gates the printed
diagnostics. -/
theorem C9_verbose_independent (c : List (String × Recipe)) (ks : List String) :
    (filter_conda_by_keywords c ks true).1 = (filter_conda_by_keywords c ks false).1 := by
  rw [filter_conda_fst, filter_conda_fst]

/-- C10: if the keyword list contains the empty string, every recipe
matches it (the empty string has no wildcard and is a substring of every
search text), so the filter returns the whole input collection. -/
theorem C10_empty_keyword_keeps_all (c : List (String × Recipe)) (ks : List String)
    (v : Bool) (h : "" ∈ ks) :
    (filter_conda_by_keywords c ks v).1 = c := by
  rw [filter_conda_fst]
  apply List.filter_eq_self.mpr
  intro p _
  have hm : "" ∈ matchedKeywords ks p.2 :=
    List.mem_filter.mpr ⟨h, keywordMatches_empty_kw (searchText p.2)⟩
  obtain ⟨x, xs, hmk⟩ : ∃ x xs, matchedKeywords ks p.2 = x :: xs := by
    cases hmk : matchedKeywords ks p.2 with
    | nil => rw [hmk] at hm; cases hm
    | cons a l => exact ⟨a, l, rfl⟩
  simp [recipeMatches, hmk]

/-- C10 witness: a concrete keyword list containing `""` keeps a concrete
collection unchanged. -/
theorem C10_empty_keyword_keeps_all_witness :
    "" ∈ ["microbiome", ""]
      ∧ (filter_conda_by_keywords [("pkg1", sampleRecipe1)] ["microbiome", ""] true).1
          = [("pkg1", sampleRecipe1)] :=
  ⟨by decide,
   C10_empty_keyword_keeps_all [("pkg1", sampleRecipe1)] ["microbiome", ""] true (by decide)⟩

/-- C3: a keyword containing `*` matches a recipe exactly when some
whitespace-delimited word of the lower-cased search text glob-matches the
lower-cased keyword; `"metagenom*"` matches text containing the word
`"metagenomic"` but not text containing only `"genome"`, a wildcard never
spans a token boundary, and no token contains whitespace. -/
theorem C3_wildcard_keyword (kw text : String) (h : kw.data.contains '*' = true) :
    keywordMatches kw text
        = (splitWhitespace text).any (fun word => fnmatch word (lowerStr kw))
      ∧ keywordMatches "metagenom*" "profiles microbial diversity in metagenomic studies" = true
      ∧ keywordMatches "metagenom*" "assembles the genome into contigs" = false
      ∧ keywordMatches "metagenom*ic" "metagenom ic" = false
      ∧ (∀ w ∈ splitWhitespace text, ∀ c ∈ w.data, c.isWhitespace = false) := by
  refine ⟨?_, by decide, by decide, by decide, splitWhitespace_no_ws text⟩
  have hl : (lowerStr kw).data.contains '*' = true := by
    rw [lowerStr_contains_star]
    exact h
  have hl2 : '*' ∈ (lowerStr kw).data := by simpa using hl
  simp [keywordMatches, hl, hl2]

/-- C3 witness: the wildcard characterisation at a concrete keyword and
text. -/
theorem C3_wildcard_keyword_witness :
    ("metagenom*" : String).data.contains '*' = true
      ∧ (keywordMatches "metagenom*" "tool for metagenomics"
            = (splitWhitespace "tool for metagenomics").any
                (fun word => fnmatch word (lowerStr "metagenom*"))
          ∧ keywordMatches "metagenom*" "profiles microbial diversity in metagenomic studies" = true
          ∧ keywordMatches "metagenom*" "assembles the genome into contigs" = false
          ∧ keywordMatches "metagenom*ic" "metagenom ic" = false
          ∧ (∀ w ∈ splitWhitespace "tool for metagenomics",
              ∀ c ∈ w.data, c.isWhitespace = false)) :=
  ⟨by decide, C3_wildcard_keyword "metagenom*" "tool for metagenomics" (by decide)⟩

/-- C4: a keyword without a wildcard matches a recipe exactly when the
lower-cased keyword occurs as a contiguous substring of the lower-cased
search text; in particular `"16S"` matches text containing `"16s rrna"`. -/
theorem C4_literal_keyword (kw text : String) (h : kw.data.contains '*' = false) :
    (keywordMatches kw text = true ↔ ∃ l r, text.data = l ++ (lowerStr kw).data ++ r)
      ∧ keywordMatches "16S" "analysis of 16s rrna microbial communities" = true := by
  refine ⟨?_, by decide⟩
  have hl : (lowerStr kw).data.contains '*' = false := by
    rw [lowerStr_contains_star]
    exact h
  have hl2 : '*' ∉ (lowerStr kw).data := by simpa using hl
  have hk : keywordMatches kw text = strContainsSub text (lowerStr kw) := by
    simp [keywordMatches, hl, hl2]
  rw [hk]
  exact strContainsSub_iff text (lowerStr kw)

/-- C4 witness: the literal-substring characterisation at a concrete
keyword and text. -/
theorem C4_literal_keyword_witness :
    ("16S" : String).data.contains '*' = false
      ∧ ((keywordMatches "16S" "profiles 16s rrna" = true
            ↔ ∃ l r, ("profiles 16s rrna" : String).data = l ++ (lowerStr "16S").data ++ r)
          ∧ keywordMatches "16S" "analysis of 16s rrna microbial communities" = true) :=
  ⟨by decide, C4_literal_keyword "16S" "profiles 16s rrna" (by decide)⟩

/-- C1 counterexample: the claim's "non-empty `package.name`" fails.  A
file whose document has `package.name` equal to the empty string passes
the validation of `parse_bioconda`, and when its text matches a keyword it
reaches the final filtered collection with an empty package name. -/
theorem C1_counterexample :
    parse_bioconda [emptyNameFile] = Except.ok [("", emptyNameRecipe)]
      ∧ ("", emptyNameRecipe)
          ∈ (filter_conda_by_keywords [("", emptyNameRecipe)] ["metagenom*"] true).1
      ∧ emptyNameRecipe.package = some { name := some "" } :=
  ⟨rfl, by decide, by decide⟩

/-- C1 (amended): for every pipeline run (`parse_bioconda` followed by
`filter_conda_by_keywords`), every entry of the final filtered collection
has a `package.name` field present and equal to its key (possibly the
empty string), matched at least one keyword against its lower-cased
search text, and occurs unchanged in the input collection. -/
theorem C1_pipeline_invariant (files : List File) (keywords : List String) (verbose : Bool)
    (conda : List (String × Recipe)) (h : parse_bioconda files = Except.ok conda) :
    ∀ p ∈ (filter_conda_by_keywords conda keywords verbose).1,
      keyedByPackageName p ∧ recipeMatches keywords p.2 = true ∧ p ∈ conda := by
  intro p hp
  rw [filter_conda_fst] at hp
  obtain ⟨hmem, hmatch⟩ := List.mem_filter.mp hp
  have hkey : keyedByPackageName p :=
    parseGo_keyed files [] conda h (by intro q hq; cases hq) p hmem
  exact ⟨hkey, hmatch, hmem⟩

/-- C1 witness: the pipeline invariant at a concrete run. -/
theorem C1_pipeline_invariant_witness :
    parse_bioconda [sampleFile1] = Except.ok [("pkg1", sampleRecipe1)]
      ∧ ∀ p ∈ (filter_conda_by_keywords [("pkg1", sampleRecipe1)] ["16S"] true).1,
          keyedByPackageName p ∧ recipeMatches ["16S"] p.2 = true
            ∧ p ∈ [("pkg1", sampleRecipe1)] :=
  ⟨rfl, C1_pipeline_invariant [sampleFile1] ["16S"] true [("pkg1", sampleRecipe1)] rfl⟩

/-- C2 counterexample: the claim's order "summary concatenated with
description" fails.  The code concatenates `description` first:
on a recipe with description `"alpha"` and summary `"beta"`, the search
text is `"alpha beta"`, not `"beta alpha"`, and the two orders are
observably different under keyword matching. -/
theorem C2_counterexample :
    searchText alphaBetaRecipe = "alpha beta"
      ∧ searchText_specOrder alphaBetaRecipe = "beta alpha"
      ∧ searchText alphaBetaRecipe ≠ searchText_specOrder alphaBetaRecipe
      ∧ keywordMatches "alpha b" (searchText alphaBetaRecipe) = true
      ∧ keywordMatches "alpha b" (searchText_specOrder alphaBetaRecipe) = false :=
  ⟨by decide, by decide, by decide, by decide, by decide⟩

/-- C2 (amended): all keyword matches for a recipe are decided against a
search text equal to the lower-casing of `about.description` concatenated
with `about.summary` in that order, joined by a single space; a missing
`about` section or a missing field contributes the empty string and does
not cause a failure. -/
theorem C2_searchText_description_first (r : Recipe) (a : About) :
    (r.about = some a →
        searchText r = lowerStr ((a.description.getD "") ++ " " ++ (a.summary.getD "")))
      ∧ (r.about = none → searchText r = " ")
      ∧ ∀ ks : List String,
          recipeMatches ks r = ks.any (fun kw => keywordMatches kw (searchText r)) := by
  refine ⟨?_, ?_, ?_⟩
  · intro h
    simp [searchText, h]
  · intro h
    simp [searchText, h]
    decide
  · intro ks
    simp only [recipeMatches, matchedKeywords]
    exact not_isEmpty_filter_eq_any _ ks

/-- C2 witness: the amended search-text description at a concrete
recipe. -/
theorem C2_searchText_description_first_witness :
    alphaBetaRecipe.about = some { description := some "alpha", summary := some "beta" }
      ∧ searchText alphaBetaRecipe = lowerStr ("alpha" ++ " " ++ "beta") :=
  ⟨by decide,
   (C2_searchText_description_first alphaBetaRecipe
      { description := some "alpha", summary := some "beta" }).1 (by decide)⟩

/-- C6: every entry of a collection successfully built by `parse_bioconda`
is stored under a key equal to its document's `package.name` (never the
file path or the folder name). -/
theorem C6_keys_are_package_names (files : List File) (d : List (String × Recipe))
    (h : parse_bioconda files = Except.ok d) :
    ∀ p ∈ d, keyedByPackageName p :=
  parseGo_keyed files [] d h (by intro q hq; cases hq)

/-- C6 witness: a concrete two-file run, keyed by the documents' package
names, not by the `meta.yaml` paths. -/
theorem C6_keys_are_package_names_witness :
    parse_bioconda [sampleFile1, emptyNameFile]
        = Except.ok [("pkg1", sampleRecipe1), ("", emptyNameRecipe)]
      ∧ ∀ p ∈ [("pkg1", sampleRecipe1), ("", emptyNameRecipe)], keyedByPackageName p :=
  ⟨rfl, C6_keys_are_package_names [sampleFile1, emptyNameFile] _ rfl⟩

/-- C7: when every earlier matched file is valid, a file whose parsed
document lacks `package.name` (including a document that is YAML null or
lacks the whole `package` section) makes `parse_bioconda` fail with a
validation error naming that file, whatever files follow: the run
terminates immediately and returns no partial collection. -/
theorem C7_missing_name_aborts (pre : List File) (f : File) (post : List File)
    (hpre : ∀ g ∈ pre, fileValid g = true) (hf : lacksPackageName f = true) :
    parse_bioconda (pre ++ f :: post)
      = Except.error (PipelineError.missingPackageName f.path) :=
  parseGo_missing_name f post hf pre hpre []

/-- C7 witness: a concrete run aborting on the file without
`package.name`, ignoring the valid file that follows it. -/
theorem C7_missing_name_aborts_witness :
    (∀ g ∈ [sampleFile1], fileValid g = true)
      ∧ lacksPackageName noNameFile = true
      ∧ parse_bioconda ([sampleFile1] ++ noNameFile :: [emptyNameFile])
          = Except.error (PipelineError.missingPackageName "recipes/bad/meta.yaml") :=
  ⟨by decide, by decide,
   C7_missing_name_aborts [sampleFile1] noNameFile [emptyNameFile] (by decide) (by decide)⟩

/-- C8: `load_keywords_from_yaml` fails with the missing-key error exactly
when the `keywords` key is absent (including a falsy document), fails with
the type error exactly when the key holds a non-sequence value, and
otherwise returns the keyword sequence unchanged. -/
theorem C8_load_keywords (keyword_file : String) (data : Option ConfigDoc) :
    (load_keywords_from_yaml keyword_file data
          = Except.error (ConfigError.missingKey keyword_file)
        ↔ keywordsOf data = none)
      ∧ (load_keywords_from_yaml keyword_file data
            = Except.error (ConfigError.wrongType keyword_file)
          ↔ ∃ s, keywordsOf data = some (KeywordsVal.scalar s))
      ∧ ∀ ks, keywordsOf data = some (KeywordsVal.seq ks) →
          load_keywords_from_yaml keyword_file data = Except.ok ks := by
  cases data with
  | none => simp [load_keywords_from_yaml, keywordsOf]
  | some d =>
    cases hd : d.keywords with
    | none => simp [load_keywords_from_yaml, keywordsOf, hd]
    | some v =>
      cases v with
      | seq ks => simp [load_keywords_from_yaml, keywordsOf, hd]
      | scalar s => simp [load_keywords_from_yaml, keywordsOf, hd]

/-- C8 witness: a well-formed configuration document returns its keyword
list unchanged. -/
theorem C8_load_keywords_witness :
    keywordsOf (some { keywords := some (KeywordsVal.seq ["microbiome", "16S", "metagenom*"]) })
        = some (KeywordsVal.seq ["microbiome", "16S", "metagenom*"])
      ∧ load_keywords_from_yaml "keywords.yaml"
          (some { keywords := some (KeywordsVal.seq ["microbiome", "16S", "metagenom*"]) })
          = Except.ok ["microbiome", "16S", "metagenom*"] :=
  ⟨by decide,
   (C8_load_keywords "keywords.yaml"
      (some { keywords := some (KeywordsVal.seq ["microbiome", "16S", "metagenom*"]) })).2.2
     ["microbiome", "16S", "metagenom*"] (by decide)⟩
